import Mathlib

/-!
# Verification of the NFT-and-market-contract repository

Shallow embedding of the NEAR NFT contract (`src/nft-contract/src/`) and the
market contract (`src/market-contract/src/`), together with theorems settling
the claims about the specification.

Modelling conventions:
* `u128` / `u64` / `u32` machine integers are modelled as `Nat`; the claims are
  proved under range hypotheses that rule out overflow of the checked
  arithmetic (NEAR contract builds enable `overflow-checks`, so an arithmetic
  overflow traps rather than wrapping; the model covers the non-trapping runs).
* Rust `HashMap`s are association lists (`List (κ × α)`) whose key lists are
  `Nodup` where the program guarantees it; `insertA` overwrites like
  `HashMap::insert`.
* A Rust `panic!` / failed `assert!` inside a NEAR contract call aborts the
  call and reverts all of its state changes, so fallible operations return
  `Except String σ`; the pre-state is what persists on `.error`.
-/

/-! ## Basic data model -/

abbrev AccountId := String
abbrev TokenId := String

/-- Association-list lookup, mirroring `HashMap::get`. -/
def lookupA {α : Type} (m : List (AccountId × α)) (k : AccountId) : Option α :=
  (m.find? (fun kv => kv.1 = k)).map (fun kv => kv.2)

/-- Association-list insert/overwrite, mirroring `HashMap::insert`. -/
def insertA {α : Type} (m : List (AccountId × α)) (k : AccountId) (v : α) :
    List (AccountId × α) :=
  match m with
  | [] => [(k, v)]
  | kv :: rest => if kv.1 = k then (k, v) :: rest else kv :: insertA rest k v

/-- Association-list removal, mirroring `HashMap::remove`. -/
def removeA {α : Type} (m : List (AccountId × α)) (k : AccountId) :
    List (AccountId × α) :=
  m.filter (fun kv => kv.1 ≠ k)

/-- A token record, from `src/nft-contract/src/lib.rs` (fields as used by
`internal.rs`, `approval.rs` and `royalty.rs`): owner, the map
account → approval id, the `next_approval_id` counter, and the
account → basis-points royalty map. -/
structure Token where
  owner_id : AccountId
  approved_account_ids : List (AccountId × Nat)
  next_approval_id : Nat
  royalty : List (AccountId × Nat)
deriving Repr, DecidableEq

/-- The NFT contract state used by the embedded operations:
`tokens_by_id` and the per-owner enumeration sets. -/
structure NftContract where
  tokens_by_id : List (TokenId × Token)
  tokens_per_owner : List (AccountId × List TokenId)
deriving Repr, DecidableEq

/-- A payout object: beneficiary → amount (`Payout` in the source). -/
abbrev Payout := List (AccountId × Nat)

/-! ## Royalty payout computation (`src/nft-contract/src/internal.rs:6-8`,
`src/nft-contract/src/royalty.rs:23-52`) -/

/-- `royalty_to_payout` from `internal.rs`:
`U128(royalty_percentage as u128 * amount_to_pay / 10_000u128)`. -/
def royalty_to_payout (royalty_percentage : Nat) (amount_to_pay : Nat) : Nat :=
  royalty_percentage * amount_to_pay / 10000

/-- The `total_perpetual` accumulated by the loop in `nft_payout`:
sum of the basis points of the royalty entries whose key is not the owner. -/
def total_perpetual (owner_id : AccountId) (royalty : List (AccountId × Nat)) : Nat :=
  ((royalty.filter (fun kv => kv.1 ≠ owner_id)).map (fun kv => kv.2)).sum

/-- The payout map built by the loop of `nft_payout` / `nft_transfer_payout`:
one entry `(k, royalty_to_payout v balance)` per non-owner royalty entry,
then the owner entry `royalty_to_payout (10000 - total_perpetual) balance`
inserted last. -/
def payout_entries (owner_id : AccountId) (royalty : List (AccountId × Nat))
    (balance : Nat) : Payout :=
  insertA
    ((royalty.filter (fun kv => kv.1 ≠ owner_id)).map
      (fun kv => (kv.1, royalty_to_payout kv.2 balance)))
    owner_id
    (royalty_to_payout (10000 - total_perpetual owner_id royalty) balance)

/-- `nft_payout` from `royalty.rs:23-52`: look the token up, check
`royalty.len() <= max_len_payout`, and build the payout map. -/
def nft_payout (s : NftContract) (token_id : TokenId) (balance : Nat)
    (max_len_payout : Nat) : Except String Payout :=
  match lookupA s.tokens_by_id token_id with
  | none => .error "No token"
  | some token =>
    if token.royalty.length ≤ max_len_payout then
      .ok (payout_entries token.owner_id token.royalty balance)
    else
      .error "Market cannot payout to that many receivers"

/-! ## Token transfer (`src/nft-contract/src/internal.rs:79-199`) -/

/-- `internal_add_token_to_owner` from `internal.rs:81-102`: insert the token
id into the receiver's set (creating the set if absent). -/
def internal_add_token_to_owner (s : NftContract) (account_id : AccountId)
    (token_id : TokenId) : NftContract :=
  let tokens_set := (lookupA s.tokens_per_owner account_id).getD []
  let tokens_set := if token_id ∈ tokens_set then tokens_set
                    else tokens_set ++ [token_id]
  { s with tokens_per_owner := insertA s.tokens_per_owner account_id tokens_set }

/-- `internal_remove_token_from_owner` from `internal.rs:105-122`: the owner's
set must exist; remove the token id, dropping the set entirely if it becomes
empty. -/
def internal_remove_token_from_owner (s : NftContract) (account_id : AccountId)
    (token_id : TokenId) : Except String NftContract :=
  match lookupA s.tokens_per_owner account_id with
  | none => .error "Token should be owned by the sender"
  | some tokens_set =>
    let tokens_set := tokens_set.filter (fun t => t ≠ token_id)
    if tokens_set.isEmpty then
      .ok { s with tokens_per_owner := removeA s.tokens_per_owner account_id }
    else
      .ok { s with tokens_per_owner := insertA s.tokens_per_owner account_id tokens_set }

/-- The part of `internal_transfer` after the authorization checks
(`internal.rs:156-197`): same-owner check, move between enumeration sets,
replace the token record, return the previous token. -/
def internal_transfer_body (s : NftContract) (receiver_id : AccountId)
    (token_id : TokenId) (token : Token) : Except String (NftContract × Token) :=
  if token.owner_id = receiver_id then
    .error "The token owner and the receiver should be different"
  else
    match internal_remove_token_from_owner s token.owner_id token_id with
    | .error e => .error e
    | .ok s1 =>
      let s2 := internal_add_token_to_owner s1 receiver_id token_id
      let new_token : Token :=
        { owner_id := receiver_id
          approved_account_ids := []
          next_approval_id := token.next_approval_id
          royalty := token.royalty }
      .ok ({ s2 with tokens_by_id := insertA s2.tokens_by_id token_id new_token }, token)

/-- `internal_transfer` from `internal.rs:125-199`. Checks, in source order:
token exists ("No token"); if the sender is not the owner, the sender must be
in `approved_account_ids` ("Unauthorized") and, when an `approval_id` is
supplied, it must equal the sender's recorded id; then `internal_transfer_body`
performs the same-owner check and the mutation. -/
def internal_transfer (s : NftContract) (sender_id receiver_id : AccountId)
    (token_id : TokenId) (approval_id : Option Nat) :
    Except String (NftContract × Token) :=
  match lookupA s.tokens_by_id token_id with
  | none => .error "No token"
  | some token =>
    if sender_id ≠ token.owner_id then
      if (lookupA token.approved_account_ids sender_id).isNone then
        .error "Unauthorized"
      else
        match approval_id with
        | some enforced_approval_id =>
          match lookupA token.approved_account_ids sender_id with
          | none => .error "Sender must be approved"
          | some actual_approval_id =>
            if actual_approval_id ≠ enforced_approval_id then
              .error "The actual approval_id is different from the given approval_id"
            else internal_transfer_body s receiver_id token_id token
        | none => internal_transfer_body s receiver_id token_id token
    else internal_transfer_body s receiver_id token_id token

/-- `nft_transfer_payout` from `royalty.rs:55-106`: requires exactly one
yoctoNEAR attached, transfers via `internal_transfer` using the sender
(`env::predecessor_account_id()`) and `Some(approval_id)`, then computes the
payout from the *previous* token's owner and royalty, with the
`max_len_payout` check. -/
def nft_transfer_payout (s : NftContract) (sender_id : AccountId)
    (attached_deposit : Nat) (receiver_id : AccountId) (token_id : TokenId)
    (approval_id : Nat) (balance : Nat) (max_len_payout : Nat) :
    Except String (NftContract × Payout) :=
  if attached_deposit ≠ 1 then
    .error "Requires attached deposit of exactly 1 yoctoNEAR"
  else
    match internal_transfer s sender_id receiver_id token_id (some approval_id) with
    | .error e => .error e
    | .ok (s, previous_token) =>
      if previous_token.royalty.length ≤ max_len_payout then
        .ok (s, payout_entries previous_token.owner_id previous_token.royalty balance)
      else
        .error "Market cannot payout to that many receivers"

/-- The persistent ledger state after an `nft_transfer_payout` call: the new
state on success, the unchanged pre-state when the call panicked (NEAR
reverts all state changes of a failed call). -/
def nft_transfer_payout_run (s : NftContract) (sender_id : AccountId)
    (attached_deposit : Nat) (receiver_id : AccountId) (token_id : TokenId)
    (approval_id : Nat) (balance : Nat) (max_len_payout : Nat) : NftContract :=
  match nft_transfer_payout s sender_id attached_deposit receiver_id token_id
      approval_id balance max_len_payout with
  | .ok (s1, _) => s1
  | .error _ => s

/-! ## Approval operations (`src/nft-contract/src/approval.rs`) -/

/-- `nft_approve` from `approval.rs:40-80`: requires at least one yoctoNEAR
attached and that the caller is the token owner; assigns `next_approval_id`
to `account_id` (overwriting any previous grant) and increments the counter.
The storage-refund and `nft_on_approve` promises are fire-and-forget and do
not affect the ledger state. Returns the new state and the assigned id. -/
def nft_approve (s : NftContract) (sender_id : AccountId) (attached_deposit : Nat)
    (token_id : TokenId) (account_id : AccountId) :
    Except String (NftContract × Nat) :=
  if attached_deposit < 1 then
    .error "Requires attached deposit of at least 1 yoctoNEAR"
  else
    match lookupA s.tokens_by_id token_id with
    | none => .error "No token"
    | some token =>
      if sender_id ≠ token.owner_id then
        .error "Predecessor must be the token owner."
      else
        let approval_id := token.next_approval_id
        let token :=
          { token with
            approved_account_ids := insertA token.approved_account_ids account_id approval_id
            next_approval_id := token.next_approval_id + 1 }
        .ok ({ s with tokens_by_id := insertA s.tokens_by_id token_id token }, approval_id)

/-- `nft_is_approved` from `approval.rs:83-108`: true iff `approved_account_id`
has an entry and, when an explicit `approval_id` is supplied, the entry equals
it. -/
def nft_is_approved (s : NftContract) (token_id : TokenId)
    (approved_account_id : AccountId) (approval_id : Option Nat) :
    Except String Bool :=
  match lookupA s.tokens_by_id token_id with
  | none => .error "No token"
  | some token =>
    match lookupA token.approved_account_ids approved_account_id with
    | some approval =>
      match approval_id with
      | some approval_id => .ok (approval_id = approval)
      | none => .ok true
    | none => .ok false

/-- `nft_revoke` from `approval.rs:112-129`: exactly one yoctoNEAR, owner
only; removes `account_id`'s entry if present. -/
def nft_revoke (s : NftContract) (sender_id : AccountId) (attached_deposit : Nat)
    (token_id : TokenId) (account_id : AccountId) : Except String NftContract :=
  if attached_deposit ≠ 1 then
    .error "Requires attached deposit of exactly 1 yoctoNEAR"
  else
    match lookupA s.tokens_by_id token_id with
    | none => .error "No token"
    | some token =>
      if sender_id ≠ token.owner_id then
        .error "assertion failed"
      else if (lookupA token.approved_account_ids account_id).isSome then
        let token :=
          { token with
            approved_account_ids := removeA token.approved_account_ids account_id }
        .ok { s with tokens_by_id := insertA s.tokens_by_id token_id token }
      else
        .ok s

/-- `nft_revoke_all` from `approval.rs:133-146`: exactly one yoctoNEAR, owner
only; clears the approval map, keeping `next_approval_id`. -/
def nft_revoke_all (s : NftContract) (sender_id : AccountId)
    (attached_deposit : Nat) (token_id : TokenId) : Except String NftContract :=
  if attached_deposit ≠ 1 then
    .error "Requires attached deposit of exactly 1 yoctoNEAR"
  else
    match lookupA s.tokens_by_id token_id with
    | none => .error "No token"
    | some token =>
      if sender_id ≠ token.owner_id then
        .error "assertion failed"
      else if token.approved_account_ids.isEmpty then
        .ok s
      else
        let token := { token with approved_account_ids := [] }
        .ok { s with tokens_by_id := insertA s.tokens_by_id token_id token }

/-! ## Market contract (`src/market-contract/src/sale.rs`) -/

/-- A sale record, `sale.rs:7-13`. `sale_conditions` is the listed price in
yoctoNEAR. -/
structure Sale where
  owner_id : AccountId
  approval_id : Nat
  nft_contract_id : String
  token_id : String
  sale_conditions : Nat
deriving Repr, DecidableEq

/-- Modelled from the spec: the fixed delimiter joining the composite
`(collection_id, token_id)` registry key; the market contract's `lib.rs`
defining it is not under `src/`. -/
def DELIMETER : String := "."

/-- The market contract state used by the embedded operations: the sale
registry keyed by `nft_contract_id ++ DELIMETER ++ token_id`. -/
structure MarketContract where
  sales : List (String × Sale)
deriving Repr, DecidableEq

/-- The arguments of the remote `nft_transfer_payout` request issued by
`process_purchase` (`sale.rs:93-103`, interface in
`src/market-contract/src/external.rs`). -/
structure NftTransferPayoutCall where
  receiver_id : AccountId
  token_id : TokenId
  approval_id : Nat
  memo : String
  balance : Nat
  max_len_payout : Nat
deriving Repr, DecidableEq

/-- Modelled from the spec: `internal_remove_sale` (the market contract's
`internal.rs` is not under `src/`) removes the sale record for the composite
key and returns it, failing if it is absent. -/
def internal_remove_sale (s : MarketContract) (nft_contract_id : String)
    (token_id : String) : Except String (MarketContract × Sale) :=
  let contract_and_token_id := nft_contract_id ++ DELIMETER ++ token_id
  match (s.sales.find? (fun kv => kv.1 = contract_and_token_id)).map (fun kv => kv.2) with
  | none => .error "No sale"
  | some sale =>
    .ok ({ sales := s.sales.filter (fun kv => kv.1 ≠ contract_and_token_id) }, sale)

/-- `remove_sale` from `sale.rs:20-25`: exactly one yoctoNEAR; removes the
sale, then asserts the caller is the sale owner. A failed assertion reverts
the whole call, so on `.error` the pre-state is what persists. -/
def remove_sale (s : MarketContract) (sender_id : AccountId)
    (attached_deposit : Nat) (nft_contract_id : String) (token_id : String) :
    Except String MarketContract :=
  if attached_deposit ≠ 1 then
    .error "Requires attached deposit of exactly 1 yoctoNEAR"
  else
    match internal_remove_sale s nft_contract_id token_id with
    | .error e => .error e
    | .ok (s, sale) =>
      if sender_id ≠ sale.owner_id then
        .error "Must be sale owner"
      else
        .ok s

/-- The persistent market state after a `remove_sale` call: the new state on
success, the unchanged pre-state when the call panicked (NEAR reverts all
state changes of a failed call). -/
def remove_sale_run (s : MarketContract) (sender_id : AccountId)
    (attached_deposit : Nat) (nft_contract_id : String) (token_id : String) :
    MarketContract :=
  match remove_sale s sender_id attached_deposit nft_contract_id token_id with
  | .ok s1 => s1
  | .error _ => s

/-- `process_purchase` from `sale.rs:82-112`: removes the sale, then issues
the remote `nft_transfer_payout(buyer, token, sale.approval_id,
"payout from market", price, 10)` request with an attached deposit of 1,
scheduling `resolve_purchase(buyer, price)` as the continuation. Returns the
new registry state, the remote call arguments and the continuation
arguments. -/
def process_purchase (s : MarketContract) (nft_contract_id : String)
    (token_id : String) (price : Nat) (buyer_id : AccountId) :
    Except String (MarketContract × NftTransferPayoutCall × (AccountId × Nat)) :=
  match internal_remove_sale s nft_contract_id token_id with
  | .error e => .error e
  | .ok (s, sale) =>
    .ok (s,
      { receiver_id := buyer_id
        token_id := token_id
        approval_id := sale.approval_id
        memo := "payout from market"
        balance := price
        max_len_payout := 10 },
      (buyer_id, price))

/-- `offer` from `sale.rs:54-77`: requires a non-zero attached deposit, an
existing sale, a buyer distinct from the sale owner and a deposit at least
the listed price; then delegates to `process_purchase` with the **attached
deposit** as the amount (`U128(deposit)` at `sale.rs:74`). -/
def offer (s : MarketContract) (buyer_id : AccountId) (attached_deposit : Nat)
    (nft_contract_id : String) (token_id : String) :
    Except String (MarketContract × NftTransferPayoutCall × (AccountId × Nat)) :=
  let deposit := attached_deposit
  if deposit = 0 then
    .error "Attached deposit must be greater than 0"
  else
    let contract_and_token_id := nft_contract_id ++ DELIMETER ++ token_id
    match (s.sales.find? (fun kv => kv.1 = contract_and_token_id)).map
        (fun kv => kv.2) with
    | none => .error "No sale"
    | some sale =>
      if sale.owner_id = buyer_id then
        .error "Cannot bid on your own sale."
      else
        let price := sale.sale_conditions
        if deposit < price then
          .error "Attached deposit must be greater than or equal to the current price"
        else
          process_purchase s nft_contract_id token_id deposit buyer_id

/-! ## Purchase resolution (`src/market-contract/src/sale.rs:114-156`) -/

/-- The outcome of the remote `nft_transfer_payout` call as seen by
`resolve_purchase`: the promise failed or produced no value
(`promise_result_as_success()` returned `None`), the returned bytes did not
decode as a `Payout`, or a decoded payout map. -/
inductive RemoteResult where
  | absent
  | undecodable
  | decoded (payout : Payout)
deriving Repr, DecidableEq

/-- The `checked_sub` loop over the payout values (`sale.rs:129-133`):
`remainder = remainder.checked_sub(value)?` for each value. -/
def checked_sub_fold (remainder : Nat) (values : List Nat) : Option Nat :=
  match values with
  | [] => some remainder
  | v :: vs => if v ≤ remainder then checked_sub_fold (remainder - v) vs else none

/-- The validation of `resolve_purchase` (`sale.rs:120-142`): `none` unless a
payout decoded, has between 1 and 10 entries, and its values subtracted from
`price` via `checked_sub` leave a remainder of 0 or 1. -/
def resolve_purchase_payout_option (price : Nat) (result : RemoteResult) :
    Option Payout :=
  match result with
  | .absent => none
  | .undecodable => none
  | .decoded payout_object =>
    if payout_object.length > 10 ∨ payout_object.isEmpty then
      none
    else
      match checked_sub_fold price (payout_object.map (fun kv => kv.2)) with
      | none => none
      | some remainder =>
        if remainder = 0 ∨ remainder = 1 then some payout_object else none

/-- `resolve_purchase` from `sale.rs:115-156`: returns the list of transfers
it issues (each `Promise::new(receiver).transfer(amount)`) and the returned
price. On an invalid remote result the single transfer `(buyer_id, price)` is
issued; on a valid payout one transfer per payout entry is issued. -/
def resolve_purchase (buyer_id : AccountId) (price : Nat)
    (result : RemoteResult) : List (AccountId × Nat) × Nat :=
  match resolve_purchase_payout_option price result with
  | none => ([(buyer_id, price)], price)
  | some payout => (payout, price)

/-! ## Derived notions used by the claims -/

/-- Sum of all amounts in a payout object. -/
def payoutSum (p : Payout) : Nat := (p.map (fun kv => kv.2)).sum

/-- The externally triggered ledger operations covered by the invariant
claims. Each carries the caller (`env::predecessor_account_id()`) and the
attached deposit. -/
inductive NftOp where
  | approve (sender_id : AccountId) (attached_deposit : Nat) (token_id : TokenId)
      (account_id : AccountId)
  | revoke (sender_id : AccountId) (attached_deposit : Nat) (token_id : TokenId)
      (account_id : AccountId)
  | revokeAll (sender_id : AccountId) (attached_deposit : Nat) (token_id : TokenId)
  | transferPayout (sender_id : AccountId) (attached_deposit : Nat)
      (receiver_id : AccountId) (token_id : TokenId) (approval_id : Nat)
      (balance : Nat) (max_len_payout : Nat)
deriving Repr, DecidableEq

/-- The persistent ledger state after an operation: the new state on success,
the unchanged pre-state when the call panicked (NEAR reverts failed calls). -/
def applyOp (s : NftContract) : NftOp → NftContract
  | .approve sender_id attached_deposit token_id account_id =>
    match nft_approve s sender_id attached_deposit token_id account_id with
    | .ok (s1, _) => s1
    | .error _ => s
  | .revoke sender_id attached_deposit token_id account_id =>
    match nft_revoke s sender_id attached_deposit token_id account_id with
    | .ok s1 => s1
    | .error _ => s
  | .revokeAll sender_id attached_deposit token_id =>
    match nft_revoke_all s sender_id attached_deposit token_id with
    | .ok s1 => s1
    | .error _ => s
  | .transferPayout sender_id attached_deposit receiver_id token_id approval_id
      balance max_len_payout =>
    nft_transfer_payout_run s sender_id attached_deposit receiver_id token_id
      approval_id balance max_len_payout

/-- Data-model invariant of a token record: every stored approval id is
strictly below `next_approval_id`. -/
def TokenWF (t : Token) : Prop :=
  ∀ kv ∈ t.approved_account_ids, kv.2 < t.next_approval_id

/-- Data-model invariant of the ledger: every token record is well-formed. -/
def LedgerWF (s : NftContract) : Prop :=
  ∀ kv ∈ s.tokens_by_id, TokenWF kv.2

/-- A concrete token used to exercise the theorems: owner also appears in the
royalty map, one approved operator. -/
def exampleToken : Token :=
  ⟨"ownerA", [("market", 0)], 1, [("ownerA", 8000), ("benB", 2000)]⟩

/-- A concrete one-token ledger. -/
def exampleLedger : NftContract :=
  ⟨[("t1", exampleToken)], [("ownerA", ["t1"])]⟩

/-- A concrete one-sale market registry (price 1000). -/
def exampleMarket : MarketContract :=
  ⟨[("nft" ++ DELIMETER ++ "t1", ⟨"ownerA", 7, "nft", "t1", 1000⟩)]⟩

/-! ## Helper lemmas: association lists -/

theorem lookupA_nil {α : Type} (k : AccountId) : lookupA ([] : List (AccountId × α)) k = none := rfl

theorem lookupA_cons {α : Type} (kv : AccountId × α) (m : List (AccountId × α))
    (k : AccountId) :
    lookupA (kv :: m) k = if kv.1 = k then some kv.2 else lookupA m k := by
  by_cases h : kv.1 = k
  · simp [lookupA, List.find?_cons_of_pos, h]
  · rw [lookupA, List.find?_cons_of_neg _ (by simpa using h), if_neg h]
    rfl

theorem lookupA_insertA_self {α : Type} (m : List (AccountId × α)) (k : AccountId)
    (v : α) : lookupA (insertA m k v) k = some v := by
  induction m with
  | nil => simp [lookupA, insertA]
  | cons kv m ih =>
    by_cases h : kv.1 = k
    · simp [insertA, h, lookupA_cons]
    · rw [insertA, if_neg h, lookupA_cons, if_neg h]
      exact ih

theorem lookupA_insertA_ne {α : Type} (m : List (AccountId × α)) (k k' : AccountId)
    (v : α) (h : k' ≠ k) : lookupA (insertA m k v) k' = lookupA m k' := by
  induction m with
  | nil => simp [lookupA, insertA, lookupA_cons, Ne.symm h]
  | cons kv m ih =>
    by_cases hk : kv.1 = k
    · subst hk
      simp [insertA, lookupA_cons, Ne.symm h]
    · simp only [insertA, if_neg hk]
      rw [lookupA_cons, lookupA_cons, ih]

theorem mem_insertA {α : Type} {m : List (AccountId × α)} {k : AccountId} {v : α}
    {a : AccountId × α} (h : a ∈ insertA m k v) : a = (k, v) ∨ a ∈ m := by
  induction m with
  | nil => simpa [insertA] using h
  | cons kv m ih =>
    by_cases hk : kv.1 = k
    · simp only [insertA, hk, if_true] at h
      rcases List.mem_cons.mp h with h | h
      · exact Or.inl h
      · exact Or.inr (List.mem_cons_of_mem _ h)
    · simp only [insertA, hk, if_false] at h
      rcases List.mem_cons.mp h with h | h
      · exact Or.inr (h ▸ List.mem_cons_self _ _)
      · rcases ih h with h | h
        · exact Or.inl h
        · exact Or.inr (List.mem_cons_of_mem _ h)

theorem insertA_of_forall_ne {α : Type} (m : List (AccountId × α)) (k : AccountId)
    (v : α) (h : ∀ kv ∈ m, kv.1 ≠ k) : insertA m k v = m ++ [(k, v)] := by
  induction m with
  | nil => simp [insertA]
  | cons kv m ih =>
    have hkv : kv.1 ≠ k := h kv (List.mem_cons_self _ _)
    simp only [insertA, hkv, if_false, List.cons_append, List.cons.injEq, true_and]
    exact ih (fun x hx => h x (List.mem_cons_of_mem _ hx))

theorem lookupA_append_left {α : Type} (m m' : List (AccountId × α))
    (k : AccountId) (v : α) (h : lookupA m k = some v) :
    lookupA (m ++ m') k = some v := by
  induction m with
  | nil => simp [lookupA_nil] at h
  | cons kv m ih =>
    rw [List.cons_append, lookupA_cons]
    rw [lookupA_cons] at h
    by_cases hk : kv.1 = k
    · rwa [if_pos hk] at h ⊢
    · rw [if_neg hk] at h ⊢
      exact ih h

theorem lookupA_append_right {α : Type} (m m' : List (AccountId × α))
    (k : AccountId) (h : lookupA m k = none) :
    lookupA (m ++ m') k = lookupA m' k := by
  induction m with
  | nil => simp
  | cons kv m ih =>
    rw [List.cons_append, lookupA_cons]
    rw [lookupA_cons] at h
    by_cases hk : kv.1 = k
    · rw [if_pos hk] at h
      exact absurd h (by simp)
    · rw [if_neg hk] at h ⊢
      exact ih h

theorem lookupA_eq_some_of_mem {α : Type} {m : List (AccountId × α)}
    {k : AccountId} {v : α} (hnd : (m.map Prod.fst).Nodup) (h : (k, v) ∈ m) :
    lookupA m k = some v := by
  induction m with
  | nil => simp at h
  | cons kv m ih =>
    simp only [List.map_cons, List.nodup_cons] at hnd
    rw [lookupA_cons]
    rcases List.mem_cons.mp h with h | h
    · subst h
      simp
    · have hk : kv.1 ≠ k := by
        intro he
        exact hnd.1 (he ▸ List.mem_map_of_mem Prod.fst h)
      rw [if_neg hk]
      exact ih hnd.2 h

theorem lookupA_eq_none_iff {α : Type} (m : List (AccountId × α)) (k : AccountId) :
    lookupA m k = none ↔ ∀ kv ∈ m, kv.1 ≠ k := by
  induction m with
  | nil => simp [lookupA_nil]
  | cons kv m ih =>
    rw [lookupA_cons]
    by_cases hk : kv.1 = k
    · simp only [if_pos hk]
      constructor
      · intro h
        exact absurd h (by simp)
      · intro h
        exact absurd hk (h kv (List.mem_cons_self _ _))
    · simp only [if_neg hk, ih]
      constructor
      · intro h x hx
        rcases List.mem_cons.mp hx with hx | hx
        · exact hx ▸ hk
        · exact h x hx
      · intro h x hx
        exact h x (List.mem_cons_of_mem _ hx)

/-! ## Helper lemmas: sums of floored divisions -/

theorem add_div_le_div_add (a b c : Nat) : a / c + b / c ≤ (a + b) / c := by
  rcases Nat.eq_zero_or_pos c with hc | hc
  · simp [hc]
  · rw [Nat.le_div_iff_mul_le hc, Nat.add_mul]
    exact Nat.add_le_add (Nat.div_mul_le_self a c) (Nat.div_mul_le_self b c)

theorem sum_map_div_le (l : List Nat) (c : Nat) :
    (l.map (fun x => x / c)).sum ≤ l.sum / c := by
  induction l with
  | nil => simp
  | cons x l ih =>
    simp only [List.map_cons, List.sum_cons]
    calc x / c + (l.map (fun x => x / c)).sum
        ≤ x / c + l.sum / c := Nat.add_le_add_left ih _
      _ ≤ (x + l.sum) / c := add_div_le_div_add _ _ _

theorem div_add_le_add_div_succ (a b c : Nat) (hc : 0 < c) :
    (a + b) / c ≤ a / c + b / c + 1 := by
  have h : a + b < (a / c + b / c + 2) * c := by
    have ha := Nat.mod_lt a hc
    have hb := Nat.mod_lt b hc
    calc a + b = (c * (a / c) + a % c) + (c * (b / c) + b % c) := by
          rw [Nat.div_add_mod, Nat.div_add_mod]
      _ = c * (a / c) + c * (b / c) + (a % c + b % c) := by ring
      _ < c * (a / c) + c * (b / c) + (c + c) :=
          Nat.add_lt_add_left (Nat.add_lt_add ha hb) _
      _ = (a / c + b / c + 2) * c := by ring
    -- `a % c < c` twice gives the strict bound
  have := (Nat.div_lt_iff_lt_mul hc).mpr h
  omega

theorem div_sum_le_sum_map_div (l : List Nat) (c : Nat) (hc : 0 < c)
    (hl : l ≠ []) : l.sum / c ≤ (l.map (fun x => x / c)).sum + (l.length - 1) := by
  induction l with
  | nil => exact absurd rfl hl
  | cons x l ih =>
    cases l with
    | nil => simp
    | cons y t =>
      have hrec := ih (by simp)
      have hstep := div_add_le_add_div_succ x (y :: t).sum c hc
      simp only [List.sum_cons, List.map_cons, List.sum_cons, List.length_cons] at hrec hstep ⊢
      set S := (t.map (fun x => x / c)).sum
      set A := x / c
      set B := (y + t.sum) / c
      set D := y / c
      set E := (x + (y + t.sum)) / c
      omega

/-! ## Helper lemmas: payout arithmetic -/

theorem sum_map_mul_right_nat (xs : List Nat) (b : Nat) :
    (xs.map (fun x => x * b)).sum = xs.sum * b := by
  induction xs with
  | nil => simp
  | cons x t ih => simp [ih, Nat.add_mul]

/-- The payout map built by the royalty loop, as a plain append: the owner's
entry goes at the end because the loop skipped every key equal to the owner. -/
theorem payout_entries_eq (owner : AccountId) (royalty : List (AccountId × Nat))
    (balance : Nat) :
    payout_entries owner royalty balance =
      ((royalty.filter (fun kv => kv.1 ≠ owner)).map
        (fun kv => (kv.1, royalty_to_payout kv.2 balance)))
      ++ [(owner, royalty_to_payout (10000 - total_perpetual owner royalty) balance)] := by
  apply insertA_of_forall_ne
  intro kv hkv
  rcases List.mem_map.mp hkv with ⟨x, hx, rfl⟩
  have := List.mem_filter.mp hx
  simpa using this.2

theorem payoutSum_payout_entries (owner : AccountId)
    (royalty : List (AccountId × Nat)) (balance : Nat) :
    payoutSum (payout_entries owner royalty balance) =
      (((royalty.filter (fun kv => kv.1 ≠ owner)).map (fun kv => kv.2)).map
        (fun x => x * balance / 10000)).sum
      + (10000 - total_perpetual owner royalty) * balance / 10000 := by
  rw [payout_entries_eq]
  simp [payoutSum, royalty_to_payout, List.map_map, Function.comp_def]

theorem length_payout_entries (owner : AccountId)
    (royalty : List (AccountId × Nat)) (balance : Nat) :
    (payout_entries owner royalty balance).length =
      (royalty.filter (fun kv => kv.1 ≠ owner)).length + 1 := by
  rw [payout_entries_eq]
  simp

theorem total_perpetual_le (owner : AccountId) (royalty : List (AccountId × Nat)) :
    total_perpetual owner royalty ≤ (royalty.map (fun kv => kv.2)).sum := by
  unfold total_perpetual
  induction royalty with
  | nil => simp
  | cons kv t ih =>
    by_cases h : kv.1 = owner
    · rw [List.filter_cons_of_neg (by simp [h])]
      simp only [List.map_cons, List.sum_cons]
      omega
    · rw [List.filter_cons_of_pos (by simp [h])]
      simp only [List.map_cons, List.sum_cons]
      omega

theorem payout_core_upper (xs : List Nat) (balance : Nat) (hT : xs.sum ≤ 10000) :
    (xs.map (fun x => x * balance / 10000)).sum
      + (10000 - xs.sum) * balance / 10000 ≤ balance := by
  have hkey : (xs.map (fun x => x * balance)).sum + (10000 - xs.sum) * balance
      = 10000 * balance := by
    rw [sum_map_mul_right_nat]
    have h : xs.sum + (10000 - xs.sum) = 10000 := by omega
    calc xs.sum * balance + (10000 - xs.sum) * balance
        = (xs.sum + (10000 - xs.sum)) * balance := by ring
      _ = 10000 * balance := by rw [h]
  have hL : (xs.map (fun x => x * balance / 10000)).sum
        + (10000 - xs.sum) * balance / 10000
      = ((xs.map (fun x => x * balance)
          ++ [(10000 - xs.sum) * balance]).map (fun x => x / 10000)).sum := by
    simp [List.map_append, List.map_map, Function.comp_def]
  rw [hL]
  calc ((xs.map (fun x => x * balance)
          ++ [(10000 - xs.sum) * balance]).map (fun x => x / 10000)).sum
      ≤ (xs.map (fun x => x * balance) ++ [(10000 - xs.sum) * balance]).sum / 10000 :=
        sum_map_div_le _ _
    _ = 10000 * balance / 10000 := by
        rw [List.sum_append]
        simp only [List.sum_cons, List.sum_nil, Nat.add_zero]
        rw [hkey]
    _ = balance := Nat.mul_div_cancel_left balance (by norm_num)

theorem payout_core_lower (xs : List Nat) (balance : Nat) (hT : xs.sum ≤ 10000) :
    balance ≤ (xs.map (fun x => x * balance / 10000)).sum
      + (10000 - xs.sum) * balance / 10000 + xs.length := by
  have hkey : (xs.map (fun x => x * balance)).sum + (10000 - xs.sum) * balance
      = 10000 * balance := by
    rw [sum_map_mul_right_nat]
    have h : xs.sum + (10000 - xs.sum) = 10000 := by omega
    calc xs.sum * balance + (10000 - xs.sum) * balance
        = (xs.sum + (10000 - xs.sum)) * balance := by ring
      _ = 10000 * balance := by rw [h]
  have hL : (xs.map (fun x => x * balance / 10000)).sum
        + (10000 - xs.sum) * balance / 10000
      = ((xs.map (fun x => x * balance)
          ++ [(10000 - xs.sum) * balance]).map (fun x => x / 10000)).sum := by
    simp [List.map_append, List.map_map, Function.comp_def]
  have hne : xs.map (fun x => x * balance) ++ [(10000 - xs.sum) * balance] ≠ [] := by
    simp
  have hdiv := div_sum_le_sum_map_div
    (xs.map (fun x => x * balance) ++ [(10000 - xs.sum) * balance]) 10000
    (by norm_num) hne
  rw [List.sum_append] at hdiv
  simp only [List.sum_cons, List.sum_nil, Nat.add_zero] at hdiv
  rw [hkey, Nat.mul_div_cancel_left balance (by norm_num)] at hdiv
  rw [hL]
  have hlen : (xs.map (fun x => x * balance)
      ++ [(10000 - xs.sum) * balance]).length = xs.length + 1 := by simp
  rw [hlen] at hdiv
  omega

/-- Keys of the non-owner part of the payout map are `Nodup` whenever the
royalty map's keys are. -/
theorem nodup_keys_filtered_mapped (owner : AccountId)
    (royalty : List (AccountId × Nat)) (balance : Nat)
    (hnd : (royalty.map Prod.fst).Nodup) :
    (((royalty.filter (fun kv => kv.1 ≠ owner)).map
      (fun kv => (kv.1, royalty_to_payout kv.2 balance))).map Prod.fst).Nodup := by
  rw [List.map_map]
  have heq : (Prod.fst ∘ fun kv : AccountId × Nat =>
      (kv.1, royalty_to_payout kv.2 balance)) = Prod.fst := rfl
  rw [heq]
  exact hnd.sublist ((List.filter_sublist _).map Prod.fst)

/-- The non-owner part of the payout map binds no key equal to the owner. -/
theorem lookupA_filtered_mapped_owner (owner : AccountId)
    (royalty : List (AccountId × Nat)) (balance : Nat) :
    lookupA ((royalty.filter (fun kv => kv.1 ≠ owner)).map
      (fun kv => (kv.1, royalty_to_payout kv.2 balance))) owner = none := by
  rw [lookupA_eq_none_iff]
  intro kv hkv
  rcases List.mem_map.mp hkv with ⟨x, hx, rfl⟩
  simpa using (List.mem_filter.mp hx).2

/-! ## Claims -/

/-- C3: for every token whose royalty map has total basis points ≤ 10000 and
at most `max_len_payout` entries, and for every amount, the payout returned
by `nft_payout` has amounts summing to at most the amount, and to at least
the amount minus (number of payout entries − 1) units of rounding loss, the
owner's entry absorbing the aggregate remainder
`royalty_to_payout (10000 - total_perpetual) balance`. -/
theorem C3_nft_payout_sum_bounds (s : NftContract) (token_id : TokenId)
    (balance max_len_payout : Nat) (token : Token)
    (htok : lookupA s.tokens_by_id token_id = some token)
    (hbps : (token.royalty.map (fun kv => kv.2)).sum ≤ 10000)
    (hlen : token.royalty.length ≤ max_len_payout) :
    ∃ p, nft_payout s token_id balance max_len_payout = Except.ok p ∧
      payoutSum p ≤ balance ∧
      balance ≤ payoutSum p + (p.length - 1) ∧
      lookupA p token.owner_id =
        some (royalty_to_payout
          (10000 - total_perpetual token.owner_id token.royalty) balance) := by
  have hT : total_perpetual token.owner_id token.royalty ≤ 10000 :=
    le_trans (total_perpetual_le _ _) hbps
  have hT' : ((token.royalty.filter (fun kv => kv.1 ≠ token.owner_id)).map
      (fun kv => kv.2)).sum ≤ 10000 := hT
  refine ⟨payout_entries token.owner_id token.royalty balance, ?_, ?_, ?_, ?_⟩
  · simp [nft_payout, htok, hlen]
  · rw [payoutSum_payout_entries]
    exact payout_core_upper _ balance hT'
  · rw [payoutSum_payout_entries, length_payout_entries, Nat.add_sub_cancel]
    have h := payout_core_lower _ balance hT'
    rw [List.length_map] at h
    exact h
  · rw [payout_entries_eq,
      lookupA_append_right _ _ _ (lookupA_filtered_mapped_owner _ _ _)]
    simp [lookupA_cons]

/-- Witness for C3 at the spec's end-to-end example:
royalty `{ownerA: 8000, benB: 2000}`, balance 1000. -/
theorem C3_nft_payout_sum_bounds_witness :
    ∃ p, nft_payout
        ⟨[("t1", ⟨"ownerA", [("market", 0)], 1, [("ownerA", 8000), ("benB", 2000)]⟩)],
         [("ownerA", ["t1"])]⟩ "t1" 1000 10 = Except.ok p ∧
      payoutSum p ≤ 1000 ∧
      1000 ≤ payoutSum p + (p.length - 1) ∧
      lookupA p "ownerA" =
        some (royalty_to_payout
          (10000 - total_perpetual "ownerA" [("ownerA", 8000), ("benB", 2000)]) 1000) :=
  C3_nft_payout_sum_bounds _ "t1" 1000 10
    ⟨"ownerA", [("market", 0)], 1, [("ownerA", 8000), ("benB", 2000)]⟩
    (by decide) (by decide) (by decide)

/-- Adding a token to an owner's enumeration set leaves `tokens_by_id`
untouched. -/
theorem internal_add_tokens_by_id (s : NftContract) (account_id : AccountId)
    (token_id : TokenId) :
    (internal_add_token_to_owner s account_id token_id).tokens_by_id =
      s.tokens_by_id := rfl

theorem internal_remove_tokens_by_id {s : NftContract} {account_id : AccountId}
    {token_id : TokenId} {s2 : NftContract}
    (h : internal_remove_token_from_owner s account_id token_id = .ok s2) :
    s2.tokens_by_id = s.tokens_by_id := by
  unfold internal_remove_token_from_owner at h
  split at h
  · exact absurd h (by simp)
  · simp only [] at h
    split at h <;> (cases h; rfl)

theorem internal_transfer_body_ok_inv {s : NftContract} {receiver_id : AccountId}
    {token_id : TokenId} {token : Token} {s1 : NftContract} {old : Token}
    (h : internal_transfer_body s receiver_id token_id token = .ok (s1, old)) :
    old = token ∧ token.owner_id ≠ receiver_id ∧
    s1.tokens_by_id = insertA s.tokens_by_id token_id
      ⟨receiver_id, [], token.next_approval_id, token.royalty⟩ := by
  unfold internal_transfer_body at h
  split at h
  · exact absurd h (by simp)
  · rename_i hne
    split at h
    · exact absurd h (by simp)
    · rename_i s2 hrem
      injection h with h
      injection h with h1 h2
      refine ⟨h2.symm, hne, ?_⟩
      rw [← h1]
      simp only [internal_add_tokens_by_id, internal_remove_tokens_by_id hrem]

theorem internal_transfer_ok_inv {s : NftContract} {sender_id receiver_id : AccountId}
    {token_id : TokenId} {approval_id : Option Nat} {s1 : NftContract} {old : Token}
    (h : internal_transfer s sender_id receiver_id token_id approval_id
      = .ok (s1, old)) :
    lookupA s.tokens_by_id token_id = some old ∧ old.owner_id ≠ receiver_id ∧
    s1.tokens_by_id = insertA s.tokens_by_id token_id
      ⟨receiver_id, [], old.next_approval_id, old.royalty⟩ := by
  unfold internal_transfer at h
  split at h
  · exact absurd h (by simp)
  · rename_i t hlook
    have hb : internal_transfer_body s receiver_id token_id t = .ok (s1, old) := by
      by_cases hsender : sender_id ≠ t.owner_id
      · rw [if_pos hsender] at h
        by_cases hnone : (lookupA t.approved_account_ids sender_id).isNone = true
        · rw [if_pos hnone] at h
          exact absurd h (by simp)
        · rw [if_neg hnone] at h
          cases approval_id with
          | none => exact h
          | some e =>
            cases hact : lookupA t.approved_account_ids sender_id with
            | none => rw [hact] at h; exact absurd h (by simp)
            | some a =>
              rw [hact] at h
              simp only [] at h
              by_cases heq : a ≠ e
              · rw [if_pos heq] at h
                exact absurd h (by simp)
              · rw [if_neg heq] at h
                exact h
      · rw [if_neg hsender] at h
        exact h
    obtain ⟨ht, hne, hid⟩ := internal_transfer_body_ok_inv hb
    subst ht
    exact ⟨hlook, hne, hid⟩

/-- C4: for every existing token whose royalty map respects the data-model
invariant (distinct keys, total basis points ≤ 10000), `nft_payout` fails
exactly when the royalty map has more than `max_len_payout` entries;
otherwise it assigns every beneficiary other than the owner
`royalty_to_payout bps balance = floor(bps * balance / 10000)` and assigns
the owner `royalty_to_payout (10000 - totalBps) balance` where `totalBps`
sums the non-owner basis points. -/
theorem C4_nft_payout_characterization (s : NftContract) (token_id : TokenId)
    (balance max_len_payout : Nat) (token : Token)
    (htok : lookupA s.tokens_by_id token_id = some token)
    (hnd : (token.royalty.map Prod.fst).Nodup)
    (hbps : (token.royalty.map (fun kv => kv.2)).sum ≤ 10000) :
    ((∃ e, nft_payout s token_id balance max_len_payout = Except.error e) ↔
      max_len_payout < token.royalty.length) ∧
    (token.royalty.length ≤ max_len_payout →
      ∃ p, nft_payout s token_id balance max_len_payout = Except.ok p ∧
        (∀ b bps, (b, bps) ∈ token.royalty → b ≠ token.owner_id →
          lookupA p b = some (royalty_to_payout bps balance)) ∧
        lookupA p token.owner_id =
          some (royalty_to_payout
            (10000 - total_perpetual token.owner_id token.royalty) balance)) := by
  constructor
  · constructor
    · rintro ⟨e, he⟩
      by_contra hgt
      push_neg at hgt
      rw [nft_payout, htok] at he
      simp only [if_pos hgt] at he
      exact Except.noConfusion he
    · intro hgt
      refine ⟨"Market cannot payout to that many receivers", ?_⟩
      rw [nft_payout, htok]
      simp only [if_neg (Nat.not_le.mpr hgt)]
  · intro hle
    refine ⟨payout_entries token.owner_id token.royalty balance, ?_, ?_, ?_⟩
    · rw [nft_payout, htok]
      simp only [if_pos hle]
    · intro b bps hmem hb
      rw [payout_entries_eq]
      apply lookupA_append_left
      apply lookupA_eq_some_of_mem (nodup_keys_filtered_mapped _ _ _ hnd)
      exact List.mem_map.mpr
        ⟨(b, bps), List.mem_filter.mpr ⟨hmem, by simpa using hb⟩, rfl⟩
    · rw [payout_entries_eq,
        lookupA_append_right _ _ _ (lookupA_filtered_mapped_owner _ _ _)]
      simp [lookupA_cons]

/-- Witness for C4 at the spec's example token. -/
theorem C4_nft_payout_characterization_witness :
    ((∃ e, nft_payout
        ⟨[("t1", ⟨"ownerA", [("market", 0)], 1, [("ownerA", 8000), ("benB", 2000)]⟩)],
         [("ownerA", ["t1"])]⟩ "t1" 1000 10 = Except.error e) ↔
      10 < ([("ownerA", 8000), ("benB", 2000)] : List (AccountId × Nat)).length) ∧
    (([("ownerA", 8000), ("benB", 2000)] : List (AccountId × Nat)).length ≤ 10 →
      ∃ p, nft_payout
          ⟨[("t1", ⟨"ownerA", [("market", 0)], 1, [("ownerA", 8000), ("benB", 2000)]⟩)],
           [("ownerA", ["t1"])]⟩ "t1" 1000 10 = Except.ok p ∧
        (∀ b bps, (b, bps) ∈ ([("ownerA", 8000), ("benB", 2000)] : List (AccountId × Nat)) →
          b ≠ "ownerA" →
          lookupA p b = some (royalty_to_payout bps 1000)) ∧
        lookupA p "ownerA" =
          some (royalty_to_payout
            (10000 - total_perpetual "ownerA" [("ownerA", 8000), ("benB", 2000)]) 1000)) :=
  C4_nft_payout_characterization _ "t1" 1000 10
    ⟨"ownerA", [("market", 0)], 1, [("ownerA", 8000), ("benB", 2000)]⟩
    (by decide) (by decide) (by decide)

/-- C10: whenever the payout computation succeeds, the payout map contains an
entry for the token's (previous) owner — hence is never empty — and any key
equal to the owner occurs exactly once, bound to the owner's remainder share
(an owner appearing in the royalty map is skipped, not paid twice); the
payout returned by a successful `nft_transfer_payout` is that same map,
computed from the previous owner. -/
theorem C10_payout_owner_entry (s : NftContract) (token_id : TokenId)
    (balance max_len_payout : Nat) (token : Token)
    (htok : lookupA s.tokens_by_id token_id = some token)
    (hlen : token.royalty.length ≤ max_len_payout) :
    ∃ p, nft_payout s token_id balance max_len_payout = Except.ok p ∧
      p ≠ [] ∧
      lookupA p token.owner_id =
        some (royalty_to_payout
          (10000 - total_perpetual token.owner_id token.royalty) balance) ∧
      p.filter (fun kv => kv.1 = token.owner_id) =
        [(token.owner_id,
          royalty_to_payout
            (10000 - total_perpetual token.owner_id token.royalty) balance)] ∧
      (∀ sender_id attached_deposit receiver_id approval_id s1 p1,
        nft_transfer_payout s sender_id attached_deposit receiver_id token_id
          approval_id balance max_len_payout = Except.ok (s1, p1) → p1 = p) := by
  refine ⟨payout_entries token.owner_id token.royalty balance, ?_, ?_, ?_, ?_, ?_⟩
  · rw [nft_payout, htok]
    simp only [if_pos hlen]
  · rw [payout_entries_eq]
    simp
  · rw [payout_entries_eq,
      lookupA_append_right _ _ _ (lookupA_filtered_mapped_owner _ _ _)]
    simp [lookupA_cons]
  · rw [payout_entries_eq, List.filter_append]
    have hnil : ((token.royalty.filter (fun kv => kv.1 ≠ token.owner_id)).map
        (fun kv => (kv.1, royalty_to_payout kv.2 balance))).filter
          (fun kv => kv.1 = token.owner_id) = [] := by
      rw [List.filter_eq_nil]
      intro kv hkv
      rcases List.mem_map.mp hkv with ⟨x, hx, rfl⟩
      simpa using (List.mem_filter.mp hx).2
    rw [hnil]
    simp
  · intro sender_id attached_deposit receiver_id approval_id s1 p1 h
    rw [nft_transfer_payout] at h
    split at h
    · exact Except.noConfusion h
    · split at h
      · exact Except.noConfusion h
      · rename_i s' prev heq
        obtain ⟨hlk, hne, hid⟩ := internal_transfer_ok_inv heq
        rw [htok] at hlk
        injection hlk with hlk
        subst hlk
        split at h
        all_goals first
          | exact Except.noConfusion h
          | (injection h with h; cases h; rfl)

/-- Witness for C10 at the spec's example token, whose owner also appears in
the royalty map. -/
theorem C10_payout_owner_entry_witness :
    ∃ p, nft_payout
        ⟨[("t1", ⟨"ownerA", [("market", 0)], 1, [("ownerA", 8000), ("benB", 2000)]⟩)],
         [("ownerA", ["t1"])]⟩ "t1" 1000 10 = Except.ok p ∧
      p ≠ [] ∧
      lookupA p "ownerA" =
        some (royalty_to_payout
          (10000 - total_perpetual "ownerA" [("ownerA", 8000), ("benB", 2000)]) 1000) ∧
      p.filter (fun kv => kv.1 = "ownerA") =
        [("ownerA",
          royalty_to_payout
            (10000 - total_perpetual "ownerA" [("ownerA", 8000), ("benB", 2000)]) 1000)] ∧
      (∀ sender_id attached_deposit receiver_id approval_id s1 p1,
        nft_transfer_payout
          ⟨[("t1", ⟨"ownerA", [("market", 0)], 1, [("ownerA", 8000), ("benB", 2000)]⟩)],
           [("ownerA", ["t1"])]⟩ sender_id attached_deposit receiver_id "t1"
          approval_id 1000 10 = Except.ok (s1, p1) → p1 = p) :=
  C10_payout_owner_entry _ "t1" 1000 10
    ⟨"ownerA", [("market", 0)], 1, [("ownerA", 8000), ("benB", 2000)]⟩
    (by decide) (by decide)

/-- C5: for `nft_transfer_payout` on an existing token (with the mandatory
one-yocto deposit): a caller that is neither the owner nor approved fails with
"Unauthorized"; a non-owner caller whose recorded approval id differs from the
supplied one fails with the approval-mismatch panic; an authorized caller
transferring to the current owner fails with the same-owner panic. Each
failure reverts, leaving the ledger state unchanged. -/
theorem C5_nft_transfer_payout_failures (s : NftContract)
    (sender_id receiver_id : AccountId) (token_id : TokenId)
    (approval_id balance max_len_payout : Nat) (token : Token)
    (htok : lookupA s.tokens_by_id token_id = some token) :
    (sender_id ≠ token.owner_id →
      lookupA token.approved_account_ids sender_id = none →
      nft_transfer_payout s sender_id 1 receiver_id token_id approval_id
          balance max_len_payout = Except.error "Unauthorized" ∧
      nft_transfer_payout_run s sender_id 1 receiver_id token_id approval_id
          balance max_len_payout = s) ∧
    (∀ actual, sender_id ≠ token.owner_id →
      lookupA token.approved_account_ids sender_id = some actual →
      actual ≠ approval_id →
      nft_transfer_payout s sender_id 1 receiver_id token_id approval_id
          balance max_len_payout =
        Except.error "The actual approval_id is different from the given approval_id" ∧
      nft_transfer_payout_run s sender_id 1 receiver_id token_id approval_id
          balance max_len_payout = s) ∧
    ((sender_id = token.owner_id ∨
        (sender_id ≠ token.owner_id ∧
          lookupA token.approved_account_ids sender_id = some approval_id)) →
      receiver_id = token.owner_id →
      nft_transfer_payout s sender_id 1 receiver_id token_id approval_id
          balance max_len_payout =
        Except.error "The token owner and the receiver should be different" ∧
      nft_transfer_payout_run s sender_id 1 receiver_id token_id approval_id
          balance max_len_payout = s) := by
  refine ⟨?_, ?_, ?_⟩
  · intro hsender happ
    have hit : internal_transfer s sender_id receiver_id token_id (some approval_id)
        = Except.error "Unauthorized" := by
      simp [internal_transfer, htok, hsender, happ]
    have h : nft_transfer_payout s sender_id 1 receiver_id token_id approval_id
        balance max_len_payout = Except.error "Unauthorized" := by
      simp [nft_transfer_payout, hit]
    exact ⟨h, by simp [nft_transfer_payout_run, h]⟩
  · intro actual hsender hact hne
    have hit : internal_transfer s sender_id receiver_id token_id (some approval_id)
        = Except.error
          "The actual approval_id is different from the given approval_id" := by
      simp [internal_transfer, htok, hsender, hact, hne]
    have h : nft_transfer_payout s sender_id 1 receiver_id token_id approval_id
        balance max_len_payout =
        Except.error
          "The actual approval_id is different from the given approval_id" := by
      simp [nft_transfer_payout, hit]
    exact ⟨h, by simp [nft_transfer_payout_run, h]⟩
  · intro hauth hrecv
    have hit : internal_transfer s sender_id receiver_id token_id (some approval_id)
        = Except.error "The token owner and the receiver should be different" := by
      rcases hauth with hown | ⟨hsender, hact⟩
      · simp [internal_transfer, htok, hown, internal_transfer_body, hrecv]
      · simp [internal_transfer, htok, hsender, hact, internal_transfer_body, hrecv]
    have h : nft_transfer_payout s sender_id 1 receiver_id token_id approval_id
        balance max_len_payout =
        Except.error "The token owner and the receiver should be different" := by
      simp [nft_transfer_payout, hit]
    exact ⟨h, by simp [nft_transfer_payout_run, h]⟩

/-- Witness for C5: the three failure modes on the example ledger. -/
theorem C5_nft_transfer_payout_failures_witness :
    (nft_transfer_payout exampleLedger "eve" 1 "buyer" "t1" 0 1000 10 =
        Except.error "Unauthorized" ∧
      nft_transfer_payout_run exampleLedger "eve" 1 "buyer" "t1" 0 1000 10 =
        exampleLedger) ∧
    (nft_transfer_payout exampleLedger "market" 1 "buyer" "t1" 5 1000 10 =
        Except.error "The actual approval_id is different from the given approval_id" ∧
      nft_transfer_payout_run exampleLedger "market" 1 "buyer" "t1" 5 1000 10 =
        exampleLedger) ∧
    (nft_transfer_payout exampleLedger "market" 1 "ownerA" "t1" 0 1000 10 =
        Except.error "The token owner and the receiver should be different" ∧
      nft_transfer_payout_run exampleLedger "market" 1 "ownerA" "t1" 0 1000 10 =
        exampleLedger) :=
  ⟨(C5_nft_transfer_payout_failures exampleLedger "eve" "buyer" "t1" 0 1000 10
      exampleToken (by decide)).1 (by decide) (by decide),
   (C5_nft_transfer_payout_failures exampleLedger "market" "buyer" "t1" 5 1000 10
      exampleToken (by decide)).2.1 0 (by decide) (by decide) (by decide),
   (C5_nft_transfer_payout_failures exampleLedger "market" "ownerA" "t1" 0 1000 10
      exampleToken (by decide)).2.2
     (Or.inr ⟨by decide, by decide⟩) (by decide)⟩

/-- C9: when the caller is the token's current owner, the supplied
`approval_id` is never checked: `internal_transfer` (and hence
`nft_transfer_payout`) behaves identically for every supplied id, and the
transfer succeeds for any id whenever the remaining (id-independent)
conditions hold. -/
theorem C9_owner_ignores_approval_id (s : NftContract) (receiver_id : AccountId)
    (token_id : TokenId) (balance max_len_payout : Nat) (token : Token)
    (htok : lookupA s.tokens_by_id token_id = some token) :
    (∀ a1 a2 : Nat,
      internal_transfer s token.owner_id receiver_id token_id (some a1) =
        internal_transfer s token.owner_id receiver_id token_id (some a2)) ∧
    (∀ a1 a2 : Nat,
      nft_transfer_payout s token.owner_id 1 receiver_id token_id a1
          balance max_len_payout =
        nft_transfer_payout s token.owner_id 1 receiver_id token_id a2
          balance max_len_payout) ∧
    (receiver_id ≠ token.owner_id →
      ∀ tokens_set, lookupA s.tokens_per_owner token.owner_id = some tokens_set →
      ∀ approval_id : Nat, ∃ s1,
        internal_transfer s token.owner_id receiver_id token_id (some approval_id) =
          Except.ok (s1, token)) := by
  have hbody : ∀ a : Nat,
      internal_transfer s token.owner_id receiver_id token_id (some a) =
        internal_transfer_body s receiver_id token_id token := by
    intro a
    simp [internal_transfer, htok]
  refine ⟨?_, ?_, ?_⟩
  · intro a1 a2
    rw [hbody a1, hbody a2]
  · intro a1 a2
    simp only [nft_transfer_payout, hbody a1, hbody a2]
  · intro hrecv tokens_set hset approval_id
    have hrem : ∃ s2, internal_remove_token_from_owner s token.owner_id token_id
        = Except.ok s2 := by
      rw [internal_remove_token_from_owner, hset]
      simp only []
      split
      · exact ⟨_, rfl⟩
      · exact ⟨_, rfl⟩
    obtain ⟨s2, hs2⟩ := hrem
    rw [hbody approval_id, internal_transfer_body,
      if_neg (fun he => hrecv he.symm), hs2]
    exact ⟨_, rfl⟩

/-- Witness for C9 on the example ledger: the owner transfers with two
arbitrary distinct approval ids. -/
theorem C9_owner_ignores_approval_id_witness :
    (internal_transfer exampleLedger "ownerA" "buyer" "t1" (some 41) =
      internal_transfer exampleLedger "ownerA" "buyer" "t1" (some 99)) ∧
    (∃ s1, internal_transfer exampleLedger "ownerA" "buyer" "t1" (some 99) =
      Except.ok (s1, exampleToken)) :=
  ⟨(C9_owner_ignores_approval_id exampleLedger "buyer" "t1" 1000 10 exampleToken
      (by decide)).1 41 99,
   (C9_owner_ignores_approval_id exampleLedger "buyer" "t1" 1000 10 exampleToken
      (by decide)).2.2 (by decide) ["t1"] (by decide) 99⟩

/-- C7: after every successful `internal_transfer`, the stored record of the
transferred token has the receiver as owner, an empty approval map, the same
`next_approval_id` and the same royalty map as before; every other token's
record is unchanged. -/
theorem C7_transfer_frame (s : NftContract) (sender_id receiver_id : AccountId)
    (token_id : TokenId) (approval_id : Option Nat) (s1 : NftContract)
    (old : Token)
    (h : internal_transfer s sender_id receiver_id token_id approval_id =
      Except.ok (s1, old)) :
    lookupA s.tokens_by_id token_id = some old ∧
    lookupA s1.tokens_by_id token_id =
      some ⟨receiver_id, [], old.next_approval_id, old.royalty⟩ ∧
    ∀ tid, tid ≠ token_id →
      lookupA s1.tokens_by_id tid = lookupA s.tokens_by_id tid := by
  obtain ⟨hlk, hne, hid⟩ := internal_transfer_ok_inv h
  refine ⟨hlk, ?_, ?_⟩
  · rw [hid, lookupA_insertA_self]
  · intro tid htid
    rw [hid, lookupA_insertA_ne _ _ _ _ htid]

/-- Witness for C7: the concrete post-state of the example transfer. -/
theorem C7_transfer_frame_witness :
    lookupA exampleLedger.tokens_by_id "t1" = some exampleToken ∧
    lookupA (⟨[("t1", ⟨"buyer", [], 1, [("ownerA", 8000), ("benB", 2000)]⟩)],
        [("buyer", ["t1"])]⟩ : NftContract).tokens_by_id "t1" =
      some ⟨"buyer", [], exampleToken.next_approval_id, exampleToken.royalty⟩ ∧
    lookupA (⟨[("t1", ⟨"buyer", [], 1, [("ownerA", 8000), ("benB", 2000)]⟩)],
        [("buyer", ["t1"])]⟩ : NftContract).tokens_by_id "t2" =
      lookupA exampleLedger.tokens_by_id "t2" :=
  ⟨(C7_transfer_frame exampleLedger "market" "buyer" "t1" (some 0)
      ⟨[("t1", ⟨"buyer", [], 1, [("ownerA", 8000), ("benB", 2000)]⟩)],
        [("buyer", ["t1"])]⟩ exampleToken (by rfl)).1,
   (C7_transfer_frame exampleLedger "market" "buyer" "t1" (some 0)
      ⟨[("t1", ⟨"buyer", [], 1, [("ownerA", 8000), ("benB", 2000)]⟩)],
        [("buyer", ["t1"])]⟩ exampleToken (by rfl)).2.1,
   (C7_transfer_frame exampleLedger "market" "buyer" "t1" (some 0)
      ⟨[("t1", ⟨"buyer", [], 1, [("ownerA", 8000), ("benB", 2000)]⟩)],
        [("buyer", ["t1"])]⟩ exampleToken (by rfl)).2.2 "t2" (by decide)⟩

/-! ## Helper lemmas: approval-id invariants -/

theorem mem_of_lookupA_eq_some {α : Type} {m : List (AccountId × α)}
    {k : AccountId} {v : α} (h : lookupA m k = some v) : (k, v) ∈ m := by
  induction m with
  | nil => simp [lookupA_nil] at h
  | cons kv m ih =>
    rw [lookupA_cons] at h
    by_cases hk : kv.1 = k
    · rw [if_pos hk] at h
      injection h with h
      exact List.mem_cons.mpr (Or.inl (by cases kv; simp_all))
    · rw [if_neg hk] at h
      exact List.mem_cons_of_mem _ (ih h)

theorem nft_approve_ok_inv {s : NftContract} {sender_id : AccountId}
    {attached_deposit : Nat} {token_id : TokenId} {account_id : AccountId}
    {s1 : NftContract} {id : Nat}
    (h : nft_approve s sender_id attached_deposit token_id account_id
      = Except.ok (s1, id)) :
    ∃ t, lookupA s.tokens_by_id token_id = some t ∧
      sender_id = t.owner_id ∧
      id = t.next_approval_id ∧
      s1.tokens_by_id = insertA s.tokens_by_id token_id
        { t with
          approved_account_ids :=
            insertA t.approved_account_ids account_id t.next_approval_id
          next_approval_id := t.next_approval_id + 1 } := by
  rw [nft_approve] at h
  split at h
  · exact Except.noConfusion h
  · split at h
    · exact Except.noConfusion h
    · rename_i t hlook
      split at h
      · exact Except.noConfusion h
      · rename_i hown
        simp only [] at h
        injection h with h
        cases h
        exact ⟨t, hlook, not_ne_iff.mp hown, rfl, rfl⟩

theorem nft_revoke_ok_inv {s : NftContract} {sender_id : AccountId}
    {attached_deposit : Nat} {token_id : TokenId} {account_id : AccountId}
    {s1 : NftContract}
    (h : nft_revoke s sender_id attached_deposit token_id account_id
      = Except.ok s1) :
    s1 = s ∨ ∃ t, lookupA s.tokens_by_id token_id = some t ∧
      s1.tokens_by_id = insertA s.tokens_by_id token_id
        { t with approved_account_ids := removeA t.approved_account_ids account_id } := by
  rw [nft_revoke] at h
  split at h
  · exact Except.noConfusion h
  · split at h
    · exact Except.noConfusion h
    · rename_i t hlook
      split at h
      · exact Except.noConfusion h
      · split at h
        · simp only [] at h
          injection h with h
          exact Or.inr ⟨t, hlook, by rw [← h]⟩
        · injection h with h
          exact Or.inl h.symm

theorem nft_revoke_all_ok_inv {s : NftContract} {sender_id : AccountId}
    {attached_deposit : Nat} {token_id : TokenId} {s1 : NftContract}
    (h : nft_revoke_all s sender_id attached_deposit token_id = Except.ok s1) :
    s1 = s ∨ ∃ t, lookupA s.tokens_by_id token_id = some t ∧
      s1.tokens_by_id = insertA s.tokens_by_id token_id
        { t with approved_account_ids := [] } := by
  rw [nft_revoke_all] at h
  split at h
  · exact Except.noConfusion h
  · split at h
    · exact Except.noConfusion h
    · rename_i t hlook
      split at h
      · exact Except.noConfusion h
      · split at h
        · injection h with h
          exact Or.inl h.symm
        · simp only [] at h
          injection h with h
          exact Or.inr ⟨t, hlook, by rw [← h]⟩

theorem nft_transfer_payout_ok_inv {s : NftContract} {sender_id : AccountId}
    {attached_deposit : Nat} {receiver_id : AccountId} {token_id : TokenId}
    {approval_id balance max_len_payout : Nat} {s1 : NftContract} {p : Payout}
    (h : nft_transfer_payout s sender_id attached_deposit receiver_id token_id
      approval_id balance max_len_payout = Except.ok (s1, p)) :
    ∃ old, lookupA s.tokens_by_id token_id = some old ∧
      s1.tokens_by_id = insertA s.tokens_by_id token_id
        ⟨receiver_id, [], old.next_approval_id, old.royalty⟩ := by
  rw [nft_transfer_payout] at h
  split at h
  · exact Except.noConfusion h
  · split at h
    · exact Except.noConfusion h
    · rename_i s' prev heq
      obtain ⟨hlk, hne, hid⟩ := internal_transfer_ok_inv heq
      split at h
      · injection h with h
        cases h
        exact ⟨prev, hlk, hid⟩
      · exact Except.noConfusion h

theorem LedgerWF_of_insert {s s1 : NftContract} {token_id : TokenId} {t : Token}
    (hs : LedgerWF s) (ht : TokenWF t)
    (hid : s1.tokens_by_id = insertA s.tokens_by_id token_id t) : LedgerWF s1 := by
  intro kv hkv
  rw [hid] at hkv
  rcases mem_insertA hkv with h | h
  · rw [h]
    exact ht
  · exact hs kv h

theorem TokenWF_approve_update {t : Token} (ht : TokenWF t) (account_id : AccountId) :
    TokenWF { t with
      approved_account_ids :=
        insertA t.approved_account_ids account_id t.next_approval_id
      next_approval_id := t.next_approval_id + 1 } := by
  intro kv hkv
  rcases mem_insertA hkv with h | h
  · rw [h]
    exact Nat.lt_succ_self _
  · exact Nat.lt_succ_of_lt (ht kv h)

theorem TokenWF_remove_update {t : Token} (ht : TokenWF t) (account_id : AccountId) :
    TokenWF { t with
      approved_account_ids := removeA t.approved_account_ids account_id } := by
  intro kv hkv
  exact ht kv (List.mem_of_mem_filter hkv)

theorem TokenWF_clear_update (t : Token) :
    TokenWF { t with approved_account_ids := [] } := by
  intro kv hkv
  simp at hkv

theorem TokenWF_fresh (receiver_id : AccountId) (n : Nat)
    (royalty : List (AccountId × Nat)) :
    TokenWF ⟨receiver_id, [], n, royalty⟩ := by
  intro kv hkv
  simp at hkv

theorem next_mono_of_insert {s s1 : NftContract} {token_id : TokenId}
    {told tnew : Token}
    (hlk : lookupA s.tokens_by_id token_id = some told)
    (hid : s1.tokens_by_id = insertA s.tokens_by_id token_id tnew)
    (hmono : told.next_approval_id ≤ tnew.next_approval_id) :
    ∀ tid t t', lookupA s.tokens_by_id tid = some t →
      lookupA s1.tokens_by_id tid = some t' →
      t.next_approval_id ≤ t'.next_approval_id := by
  intro tid t t' h1 h2
  rw [hid] at h2
  by_cases htid : tid = token_id
  · subst htid
    rw [h1] at hlk
    injection hlk with hlk
    rw [lookupA_insertA_self] at h2
    injection h2 with h2
    rw [hlk, ← h2]
    exact hmono
  · rw [lookupA_insertA_ne _ _ _ _ htid, h1] at h2
    injection h2 with h2
    rw [h2]

/-- C8: the ledger invariant — every stored approval id is strictly below the
token's `next_approval_id` — is preserved by every operation (approve,
revoke, revoke-all, transfer); `next_approval_id` never decreases under any
operation; successive approvals on the same token return strictly increasing
ids; and a fresh approval's id differs from every id currently stored (so
ids are never reused, including after a revoke-all, which keeps the
counter). -/
theorem C8_approval_id_invariants :
    (∀ s op, LedgerWF s → LedgerWF (applyOp s op)) ∧
    (∀ s op tid t t',
      lookupA s.tokens_by_id tid = some t →
      lookupA (applyOp s op).tokens_by_id tid = some t' →
      t.next_approval_id ≤ t'.next_approval_id) ∧
    (∀ s sender1 dep1 acc1 sender2 dep2 acc2 token_id s1 s2 id1 id2,
      nft_approve s sender1 dep1 token_id acc1 = Except.ok (s1, id1) →
      nft_approve s1 sender2 dep2 token_id acc2 = Except.ok (s2, id2) →
      id1 < id2) ∧
    (∀ s sender dep token_id acc s1 id t,
      LedgerWF s →
      lookupA s.tokens_by_id token_id = some t →
      nft_approve s sender dep token_id acc = Except.ok (s1, id) →
      ∀ kv ∈ t.approved_account_ids, kv.2 ≠ id) := by
  refine ⟨?_, ?_, ?_, ?_⟩
  · intro s op hs
    cases op with
    | approve sender dep tid acc =>
      rw [applyOp]
      cases happ : nft_approve s sender dep tid acc with
      | error e => exact hs
      | ok pair =>
        obtain ⟨s1, id⟩ := pair
        obtain ⟨t, hlk, _, _, hbid⟩ := nft_approve_ok_inv happ
        exact LedgerWF_of_insert hs
          (TokenWF_approve_update (hs _ (mem_of_lookupA_eq_some hlk)) acc) hbid
    | revoke sender dep tid acc =>
      rw [applyOp]
      cases hrev : nft_revoke s sender dep tid acc with
      | error e => exact hs
      | ok s1 =>
        rcases nft_revoke_ok_inv hrev with rfl | ⟨t, hlk, hbid⟩
        · exact hs
        · exact LedgerWF_of_insert hs
            (TokenWF_remove_update (hs _ (mem_of_lookupA_eq_some hlk)) acc) hbid
    | revokeAll sender dep tid =>
      rw [applyOp]
      cases hrev : nft_revoke_all s sender dep tid with
      | error e => exact hs
      | ok s1 =>
        rcases nft_revoke_all_ok_inv hrev with rfl | ⟨t, hlk, hbid⟩
        · exact hs
        · exact LedgerWF_of_insert hs (TokenWF_clear_update t) hbid
    | transferPayout sender dep recv tid aid bal maxlen =>
      rw [applyOp, nft_transfer_payout_run]
      cases htp : nft_transfer_payout s sender dep recv tid aid bal maxlen with
      | error e => exact hs
      | ok pair =>
        obtain ⟨s1, p⟩ := pair
        obtain ⟨old, hlk, hbid⟩ := nft_transfer_payout_ok_inv htp
        exact LedgerWF_of_insert hs (TokenWF_fresh recv old.next_approval_id old.royalty) hbid
  · intro s op tid t t' h1 h2
    cases op with
    | approve sender dep tid0 acc =>
      rw [applyOp] at h2
      cases happ : nft_approve s sender dep tid0 acc with
      | error e =>
        rw [happ] at h2
        simp only [] at h2
        rw [h1] at h2
        injection h2 with h2
        rw [h2]
      | ok pair =>
        obtain ⟨s1, id⟩ := pair
        rw [happ] at h2
        simp only [] at h2
        obtain ⟨t0, hlk, _, _, hbid⟩ := nft_approve_ok_inv happ
        exact next_mono_of_insert hlk hbid (Nat.le_succ _) tid t t' h1 h2
    | revoke sender dep tid0 acc =>
      rw [applyOp] at h2
      cases hrev : nft_revoke s sender dep tid0 acc with
      | error e =>
        rw [hrev] at h2
        simp only [] at h2
        rw [h1] at h2
        injection h2 with h2
        rw [h2]
      | ok s1 =>
        rw [hrev] at h2
        simp only [] at h2
        rcases nft_revoke_ok_inv hrev with rfl | ⟨t0, hlk, hbid⟩
        · rw [h1] at h2
          injection h2 with h2
          rw [h2]
        · exact next_mono_of_insert hlk hbid (Nat.le_refl _) tid t t' h1 h2
    | revokeAll sender dep tid0 =>
      rw [applyOp] at h2
      cases hrev : nft_revoke_all s sender dep tid0 with
      | error e =>
        rw [hrev] at h2
        simp only [] at h2
        rw [h1] at h2
        injection h2 with h2
        rw [h2]
      | ok s1 =>
        rw [hrev] at h2
        simp only [] at h2
        rcases nft_revoke_all_ok_inv hrev with rfl | ⟨t0, hlk, hbid⟩
        · rw [h1] at h2
          injection h2 with h2
          rw [h2]
        · exact next_mono_of_insert hlk hbid (Nat.le_refl _) tid t t' h1 h2
    | transferPayout sender dep recv tid0 aid bal maxlen =>
      rw [applyOp, nft_transfer_payout_run] at h2
      cases htp : nft_transfer_payout s sender dep recv tid0 aid bal maxlen with
      | error e =>
        rw [htp] at h2
        simp only [] at h2
        rw [h1] at h2
        injection h2 with h2
        rw [h2]
      | ok pair =>
        obtain ⟨s1, p⟩ := pair
        rw [htp] at h2
        simp only [] at h2
        obtain ⟨old, hlk, hbid⟩ := nft_transfer_payout_ok_inv htp
        exact next_mono_of_insert hlk hbid (Nat.le_refl _) tid t t' h1 h2
  · intro s sender1 dep1 acc1 sender2 dep2 acc2 token_id s1 s2 id1 id2 h1 h2
    obtain ⟨t, hlk, _, hid1, hbid⟩ := nft_approve_ok_inv h1
    obtain ⟨t2, hlk2, _, hid2, _⟩ := nft_approve_ok_inv h2
    rw [hbid, lookupA_insertA_self] at hlk2
    injection hlk2 with hlk2
    rw [hid1, hid2, ← hlk2]
    exact Nat.lt_succ_self _
  · intro s sender dep token_id acc s1 id t hs hlk happ kv hkv
    obtain ⟨t0, hlk0, _, hid, _⟩ := nft_approve_ok_inv happ
    rw [hlk] at hlk0
    injection hlk0 with hlk0
    rw [hid, ← hlk0]
    exact Nat.ne_of_lt (hs _ (mem_of_lookupA_eq_some hlk) kv hkv)

/-- Witness for C8: invariant preservation, counter monotonicity, strict
increase of successive ids, and freshness, on the example ledger. -/
theorem C8_approval_id_invariants_witness :
    LedgerWF (applyOp exampleLedger (.approve "ownerA" 1 "t1" "op2")) ∧
    exampleToken.next_approval_id ≤
      (⟨"ownerA", [("market", 0), ("op2", 1)], 2,
        [("ownerA", 8000), ("benB", 2000)]⟩ : Token).next_approval_id ∧
    (1 : Nat) < 2 ∧
    (∀ kv ∈ exampleToken.approved_account_ids, kv.2 ≠ (1 : Nat)) :=
  ⟨C8_approval_id_invariants.1 exampleLedger (.approve "ownerA" 1 "t1" "op2")
     (by unfold LedgerWF TokenWF; decide),
   C8_approval_id_invariants.2.1 exampleLedger (.approve "ownerA" 1 "t1" "op2")
     "t1" exampleToken
     ⟨"ownerA", [("market", 0), ("op2", 1)], 2, [("ownerA", 8000), ("benB", 2000)]⟩
     (by decide) (by rfl),
   C8_approval_id_invariants.2.2.1 exampleLedger "ownerA" 1 "op2" "ownerA" 1 "op3"
     "t1"
     ⟨[("t1", ⟨"ownerA", [("market", 0), ("op2", 1)], 2,
         [("ownerA", 8000), ("benB", 2000)]⟩)], [("ownerA", ["t1"])]⟩
     ⟨[("t1", ⟨"ownerA", [("market", 0), ("op2", 1), ("op3", 2)], 3,
         [("ownerA", 8000), ("benB", 2000)]⟩)], [("ownerA", ["t1"])]⟩
     1 2 (by rfl) (by rfl),
   C8_approval_id_invariants.2.2.2 exampleLedger "ownerA" 1 "t1" "op2"
     ⟨[("t1", ⟨"ownerA", [("market", 0), ("op2", 1)], 2,
         [("ownerA", 8000), ("benB", 2000)]⟩)], [("ownerA", ["t1"])]⟩
     1 exampleToken (by unfold LedgerWF TokenWF; decide) (by decide) (by rfl)⟩

/-- C6: `remove_sale` (with the mandatory one-yocto deposit) fails with
"Must be sale owner" when the caller differs from the stored owner, and the
registry is unchanged (the removal that happened before the assert is
reverted with the panicking call); when the caller is the stored owner the
sale is removed. -/
theorem C6_remove_sale_owner_only (s : MarketContract) (sender_id : AccountId)
    (nft_contract_id token_id : String) (sale : Sale)
    (hsale : (s.sales.find?
        (fun kv => kv.1 = nft_contract_id ++ DELIMETER ++ token_id)).map
        (fun kv => kv.2) = some sale) :
    (sender_id ≠ sale.owner_id →
      remove_sale s sender_id 1 nft_contract_id token_id =
        Except.error "Must be sale owner" ∧
      remove_sale_run s sender_id 1 nft_contract_id token_id = s) ∧
    (sender_id = sale.owner_id →
      remove_sale s sender_id 1 nft_contract_id token_id =
        Except.ok ⟨s.sales.filter
          (fun kv => kv.1 ≠ nft_contract_id ++ DELIMETER ++ token_id)⟩) := by
  have hrem : internal_remove_sale s nft_contract_id token_id =
      Except.ok (⟨s.sales.filter
        (fun kv => kv.1 ≠ nft_contract_id ++ DELIMETER ++ token_id)⟩, sale) := by
    rw [internal_remove_sale]
    simp only [hsale]
  constructor
  · intro hne
    have h : remove_sale s sender_id 1 nft_contract_id token_id =
        Except.error "Must be sale owner" := by
      simp [remove_sale, hrem, hne]
    exact ⟨h, by simp [remove_sale_run, h]⟩
  · intro hown
    simp [remove_sale, hrem, hown]

/-- Witness for C6 on the example registry: a non-owner caller fails and the
sale survives; the owner's call removes it. -/
theorem C6_remove_sale_owner_only_witness :
    (remove_sale exampleMarket "eve" 1 "nft" "t1" =
        Except.error "Must be sale owner" ∧
      remove_sale_run exampleMarket "eve" 1 "nft" "t1" = exampleMarket) ∧
    (remove_sale exampleMarket "ownerA" 1 "nft" "t1" =
      Except.ok ⟨exampleMarket.sales.filter
        (fun kv => kv.1 ≠ "nft" ++ DELIMETER ++ "t1")⟩) :=
  ⟨(C6_remove_sale_owner_only exampleMarket "eve" "nft" "t1"
      ⟨"ownerA", 7, "nft", "t1", 1000⟩ (by decide)).1 (by decide),
   (C6_remove_sale_owner_only exampleMarket "ownerA" "nft" "t1"
      ⟨"ownerA", 7, "nft", "t1", 1000⟩ (by decide)).2 (by decide)⟩

/-- C2 (amended): for every successful `offer` — non-zero deposit, sale
present, buyer distinct from the listed owner, deposit ≥ listed price — the
amount delegated to `process_purchase` and forwarded as the `balance` of the
remote `nft_transfer_payout` request (and into the `resolve_purchase`
continuation) is the **attached deposit** (`U128(deposit)` at `sale.rs:74`),
which may strictly exceed the listed price; it equals the price exactly when
the deposit does. -/
theorem C2_offer_forwards_deposit (s : MarketContract) (buyer_id : AccountId)
    (attached_deposit : Nat) (nft_contract_id token_id : String) (sale : Sale)
    (hdep : attached_deposit ≠ 0)
    (hsale : (s.sales.find?
        (fun kv => kv.1 = nft_contract_id ++ DELIMETER ++ token_id)).map
        (fun kv => kv.2) = some sale)
    (hbuyer : sale.owner_id ≠ buyer_id)
    (hprice : sale.sale_conditions ≤ attached_deposit) :
    offer s buyer_id attached_deposit nft_contract_id token_id =
      Except.ok
        (⟨s.sales.filter
            (fun kv => kv.1 ≠ nft_contract_id ++ DELIMETER ++ token_id)⟩,
         ⟨buyer_id, token_id, sale.approval_id, "payout from market",
           attached_deposit, 10⟩,
         (buyer_id, attached_deposit)) := by
  have hrem : internal_remove_sale s nft_contract_id token_id =
      Except.ok (⟨s.sales.filter
        (fun kv => kv.1 ≠ nft_contract_id ++ DELIMETER ++ token_id)⟩, sale) := by
    rw [internal_remove_sale]
    simp only [hsale]
  simp [offer, hdep, hsale, hbuyer, Nat.not_lt.mpr hprice, process_purchase, hrem]

/-- Witness for C2 (amended): deposit 2000 against listed price 1000 — the
forwarded balance is 2000. -/
theorem C2_offer_forwards_deposit_witness :
    offer exampleMarket "buyer" 2000 "nft" "t1" =
      Except.ok
        (⟨exampleMarket.sales.filter (fun kv => kv.1 ≠ "nft" ++ DELIMETER ++ "t1")⟩,
         ⟨"buyer", "t1", 7, "payout from market", 2000, 10⟩,
         ("buyer", 2000)) :=
  C2_offer_forwards_deposit exampleMarket "buyer" 2000 "nft" "t1"
    ⟨"ownerA", 7, "nft", "t1", 1000⟩ (by decide) (by decide) (by decide) (by decide)

/-- C2 counterexample: on a sale listed at price 1000 with an attached
deposit of 2000, the `balance` argument forwarded to the remote
`nft_transfer_payout` request is 2000 — the deposit, not the listed price
1000 as the claim states. -/
theorem C2_offer_forwards_deposit_counterexample :
    (offer exampleMarket "buyer" 2000 "nft" "t1").map
        (fun r => r.2.1.balance) = Except.ok 2000 ∧
    (exampleMarket.sales.find? (fun kv => kv.1 = "nft" ++ DELIMETER ++ "t1")).map
        (fun kv => kv.2.sale_conditions) = some 1000 ∧
    (2000 : Nat) ≠ 1000 :=
  ⟨rfl, rfl, by decide⟩

/-- The `checked_sub` loop succeeds exactly when the values sum to at most
the starting remainder, returning the difference. -/
theorem checked_sub_fold_eq (r : Nat) (vs : List Nat) :
    checked_sub_fold r vs = if vs.sum ≤ r then some (r - vs.sum) else none := by
  induction vs generalizing r with
  | nil => simp [checked_sub_fold]
  | cons v vs ih =>
    rw [checked_sub_fold]
    by_cases hv : v ≤ r
    · rw [if_pos hv, ih]
      by_cases hs : vs.sum ≤ r - v
      · rw [if_pos hs, if_pos (by simp only [List.sum_cons]; omega)]
        exact congrArg some (by simp only [List.sum_cons]; omega)
      · rw [if_neg hs, if_neg (by simp only [List.sum_cons]; omega)]
    · rw [if_neg hv, if_neg (by simp only [List.sum_cons]; omega)]

/-- C1: `resolve_purchase` issues exactly the single refund transfer
`(buyer, price)` when the remote result is absent/failed, undecodable, empty,
oversized (more than 10 entries), or sums to something other than `price`
or `price − 1`; otherwise it issues exactly the transfers of the decoded
payout, with no refund to the buyer. In both cases it returns `price`. -/
theorem C1_resolve_purchase_cases (buyer_id : AccountId) (price : Nat) :
    (∀ result, result = RemoteResult.absent ∨ result = RemoteResult.undecodable →
      resolve_purchase buyer_id price result = ([(buyer_id, price)], price)) ∧
    (∀ p : Payout,
      p.isEmpty ∨ p.length > 10 ∨ price < payoutSum p ∨ 2 ≤ price - payoutSum p →
      resolve_purchase buyer_id price (RemoteResult.decoded p) =
        ([(buyer_id, price)], price)) ∧
    (∀ p : Payout,
      ¬p.isEmpty → p.length ≤ 10 → payoutSum p ≤ price → price - payoutSum p ≤ 1 →
      resolve_purchase buyer_id price (RemoteResult.decoded p) = (p, price)) := by
  refine ⟨?_, ?_, ?_⟩
  · rintro result (rfl | rfl) <;> rfl
  · intro p hbad
    rw [resolve_purchase, resolve_purchase_payout_option]
    by_cases h1 : p.length > 10 ∨ p.isEmpty = true
    · rw [if_pos h1]
    · rw [if_neg h1]
      push_neg at h1
      have hsum : (p.map (fun kv => kv.2)).sum = payoutSum p := rfl
      rcases hbad with hb | hb | hb | hb
      · exact absurd hb h1.2
      · exact absurd hb (by omega)
      · rw [checked_sub_fold_eq, hsum, if_neg (by omega)]
      · rw [checked_sub_fold_eq, hsum, if_pos (by omega)]
        simp only []
        rw [if_neg (by omega)]
  · intro p hne hlen hsum hrem
    rw [resolve_purchase, resolve_purchase_payout_option]
    rw [if_neg (by push_neg; exact ⟨by omega, hne⟩)]
    have hs : (p.map (fun kv => kv.2)).sum = payoutSum p := rfl
    rw [checked_sub_fold_eq, hs, if_pos hsum]
    simp only []
    rw [if_pos (by omega)]

/-- Witness for C1: an oversum payout triggers the refund transfer; a payout
summing to price − 1 is distributed as-is. -/
theorem C1_resolve_purchase_cases_witness :
    resolve_purchase "buyer" 1000 RemoteResult.absent = ([("buyer", 1000)], 1000) ∧
    resolve_purchase "buyer" 1000 (RemoteResult.decoded [("a", 2000)]) =
      ([("buyer", 1000)], 1000) ∧
    resolve_purchase "buyer" 1000
        (RemoteResult.decoded [("benB", 200), ("ownerA", 799)]) =
      ([("benB", 200), ("ownerA", 799)], 1000) :=
  ⟨(C1_resolve_purchase_cases "buyer" 1000).1 RemoteResult.absent (Or.inl rfl),
   (C1_resolve_purchase_cases "buyer" 1000).2.1 [("a", 2000)]
     (Or.inr (Or.inr (Or.inl (by decide)))),
   (C1_resolve_purchase_cases "buyer" 1000).2.2 [("benB", 200), ("ownerA", 799)]
     (by decide) (by decide) (by decide) (by decide)⟩
